import Mathlib

/-!
Verification of the collaborative code-synchronization service
(`apps/server/src/service/code-service.ts`).

Strings are modelled as `List Char` (a JS string is a sequence of
code units; the service only concatenates, slices and splits them).
JS array and string primitives used by the service (`split`, `join`,
`splice`, indexed read with `|| ''` defaulting, indexed write,
`substring`) are modelled by the `js*` functions below, including
JS clamping of out-of-range indices and the invisibility of writes
at negative indices.
-/

/-- JS `s.split(sep)` for a one-character separator: the result is never
empty, `"".split(sep) = [""]`, and a trailing separator yields a trailing
empty piece. -/
def jsSplit (sep : Char) : List Char → List (List Char)
  | [] => [[]]
  | c :: rest =>
    if c = sep then [] :: jsSplit sep rest
    else
      match jsSplit sep rest with
      | [] => [[c]]
      | l :: ls => (c :: l) :: ls

/-- JS `parts.join(sep)` for a one-character separator (array holes join
as the empty string, so holes are represented as `[]`). -/
def jsJoin (sep : Char) : List (List Char) → List Char
  | [] => []
  | [l] => l
  | l :: ls => l ++ sep :: jsJoin sep ls

/-- JS `lines[i] || ''`: an out-of-range or negative index reads as
`undefined`, which the service defaults to the empty string; an empty
string element is falsy and also defaults to the empty string. -/
def jsGetD (lines : List (List Char)) (i : Int) : List Char :=
  if i < 0 then [] else lines.getD i.toNat []

/-- JS `lines[i] = v`: in-range indices overwrite, an index at or past the
length extends the array (intermediate holes read/join as `[]`), and a
negative index creates a plain object property that is invisible to
`join`/`splice`, i.e. leaves the array unchanged. -/
def jsSet (lines : List (List Char)) (i : Int) (v : List Char) : List (List Char) :=
  if i < 0 then lines
  else if i.toNat < lines.length then lines.set i.toNat v
  else lines ++ List.replicate (i.toNat - lines.length) [] ++ [v]

/-- JS `lines.splice(start, deleteCount, ...items)` (result array only):
`start` is clamped into `[0, length]` (negative values count from the
end), `deleteCount` is clamped into `[0, length - start]`. -/
def jsSplice (lines : List (List Char)) (start deleteCount : Int)
    (items : List (List Char)) : List (List Char) :=
  let len : Int := lines.length
  let s : Nat := if start < 0 then (max (len + start) 0).toNat else (min start len).toNat
  let dc : Nat := (min (max deleteCount 0) (len - (s : Int))).toNat
  lines.take s ++ items ++ lines.drop (s + dc)

/-- `spliceString` (code-service.ts lines 117-126): replace
`original[start..end)` by `insert`, with the two fast paths of the
source.  JS `substring` clamps its arguments, which `List.take`/
`List.drop` do natively. -/
def spliceString (original : List Char) (start endIdx : Nat) (insert : List Char) :
    List Char :=
  if start = endIdx ∧ insert = [] then original
  else if start = 0 ∧ endIdx = original.length then insert
  else original.take start ++ insert ++ original.drop endIdx

/-- `EditOp` tuple `[txt, startLnNum, startCol, endLnNum, endCol]`
(1-based line/column coordinates; arbitrary integers are tolerated). -/
structure EditOp where
  text : List Char
  startLnNum : Int
  startCol : Int
  endLnNum : Int
  endCol : Int
deriving DecidableEq

/-- Line-extension step (code-service.ts lines 143-148): if `startLnNum`
exceeds the current line count, grow the array up to it.  The grown slots
are array holes, which read as `''` (via `|| ''`) and join as `''`, hence
are modelled as `[]`. -/
def extendLines (lines : List (List Char)) (startLnNum : Int) : List (List Char) :=
  if startLnNum > (lines.length : Int) then
    lines ++ List.replicate (startLnNum.toNat - lines.length) []
  else lines

/-- Single-line branch of `updateCode` (code-service.ts lines 155-162). -/
def singleLineEdit (lines : List (List Char)) (startLnNum startCol endCol : Int)
    (txt : List Char) : List (List Char) :=
  let lineIndex := startLnNum - 1
  let line := jsGetD lines lineIndex
  let safeStartCol := (max 0 (min (startCol - 1) (line.length : Int))).toNat
  let safeEndCol := (max 0 (min (endCol - 1) (line.length : Int))).toNat
  jsSet lines lineIndex (spliceString line safeStartCol safeEndCol txt)

/-- Multi-line branch of `updateCode` (code-service.ts lines 163-199). -/
def multiLineEdit (lines : List (List Char)) (startLnNum startCol endLnNum endCol : Int)
    (txt : List Char) : List (List Char) :=
  let textLines := jsSplit '\n' txt
  let startLineIndex := startLnNum - 1
  let endLineIndex := endLnNum - 1
  let startLine := jsGetD lines startLineIndex
  let endLine := jsGetD lines endLineIndex
  let safeStartCol := (min (max 0 (startCol - 1)) (startLine.length : Int)).toNat
  let safeEndCol := (min (max 0 (endCol - 1)) (endLine.length : Int)).toNat
  let newStartLine := spliceString startLine safeStartCol startLine.length
    (textLines.headD [])
  let newEndLine := spliceString endLine 0 safeEndCol (textLines.getLastD [])
  let newLinesCount := textLines.length
  let removedLinesCount := endLineIndex - startLineIndex + 1
  if newLinesCount = 2 then
    let lines2 := jsSet (jsSet lines startLineIndex newStartLine)
      (startLineIndex + 1) newEndLine
    if removedLinesCount > 2 then
      jsSplice lines2 (startLineIndex + 2) (removedLinesCount - 2) []
    else lines2
  else
    jsSplice lines startLineIndex removedLinesCount
      ([newStartLine] ++ (textLines.drop 1).dropLast ++ [newEndLine])

/-- The pure edit-application step of `updateCode` (code-service.ts lines
139-202): split the current code into lines, extend, dispatch on the
whole-line-deletion fast path / single-line / multi-line branches, and
rejoin. -/
def applyEdit (currentCode : List Char) (op : EditOp) : List Char :=
  let lines := extendLines (jsSplit '\n' currentCode) op.startLnNum
  let newLines :=
    if op.text = [] ∧ op.startLnNum < op.endLnNum ∧ op.startCol = 1 ∧ op.endCol = 1 then
      jsSplice lines (op.startLnNum - 1) (op.endLnNum - op.startLnNum) []
    else if op.startLnNum = op.endLnNum then
      singleLineEdit lines op.startLnNum op.startCol op.endCol op.text
    else
      multiLineEdit lines op.startLnNum op.startCol op.endLnNum op.endCol op.text
  jsJoin '\n' newLines

/-- Checked variant of the multi-line branch: the two array reads that the
source performs without a `|| ''` default (`textLines[0]` and
`textLines[textLines.length - 1]`, lines 178 and 184) are modelled as
fallible lookups; every other access is defended in the source itself. -/
def multiLineEditChecked (lines : List (List Char))
    (startLnNum startCol endLnNum endCol : Int) (txt : List Char) :
    Option (List (List Char)) := do
  let textLines := jsSplit '\n' txt
  let startLineIndex := startLnNum - 1
  let endLineIndex := endLnNum - 1
  let startLine := jsGetD lines startLineIndex
  let endLine := jsGetD lines endLineIndex
  let safeStartCol := (min (max 0 (startCol - 1)) (startLine.length : Int)).toNat
  let safeEndCol := (min (max 0 (endCol - 1)) (endLine.length : Int)).toNat
  let firstText ← textLines.get? 0
  let lastText ← textLines.get? (textLines.length - 1)
  let newStartLine := spliceString startLine safeStartCol startLine.length firstText
  let newEndLine := spliceString endLine 0 safeEndCol lastText
  let newLinesCount := textLines.length
  let removedLinesCount := endLineIndex - startLineIndex + 1
  if newLinesCount = 2 then
    let lines2 := jsSet (jsSet lines startLineIndex newStartLine)
      (startLineIndex + 1) newEndLine
    if removedLinesCount > 2 then
      pure (jsSplice lines2 (startLineIndex + 2) (removedLinesCount - 2) [])
    else pure lines2
  else
    pure (jsSplice lines startLineIndex removedLinesCount
      ([newStartLine] ++ (textLines.drop 1).dropLast ++ [newEndLine]))

/-- Checked variant of the edit-application step: fails (returns `none`)
exactly where an undefended out-of-range read would make an `undefined`
value flow into the document. -/
def applyEditChecked (currentCode : List Char) (op : EditOp) : Option (List Char) := do
  let lines := extendLines (jsSplit '\n' currentCode) op.startLnNum
  let newLines ←
    if op.text = [] ∧ op.startLnNum < op.endLnNum ∧ op.startCol = 1 ∧ op.endCol = 1 then
      pure (jsSplice lines (op.startLnNum - 1) (op.endLnNum - op.startLnNum) [])
    else if op.startLnNum = op.endLnNum then
      pure (singleLineEdit lines op.startLnNum op.startCol op.endCol op.text)
    else
      multiLineEditChecked lines op.startLnNum op.startCol op.endLnNum op.endCol op.text
  pure (jsJoin '\n' newLines)

/-! ## Room data store (code-service.ts lines 20-71, 203-212)

The JS `Map<string, RoomData>` is modelled as a function
`String → Option RoomData`; the service only uses `get`, `set` and
`delete`, for which this is an exact model. -/

/-- Per-room data (code-service.ts lines 21-24). -/
structure RoomData where
  code : List Char
  langId : String
deriving DecidableEq

/-- The room-keyed store `roomData` (code-service.ts line 27). -/
def Store := String → Option RoomData

/-- `DEFAULT_LANG_ID` (code-service.ts line 30). -/
def DEFAULT_LANG_ID : String := "html"

/-- `getCode` (code-service.ts lines 54-56): `roomData.get(roomID)?.code || ''`.
The `|| ''` default coincides with `getD` because the empty string is the
only falsy string. -/
def getCode (s : Store) (roomID : String) : List Char :=
  match s roomID with
  | some data => data.code
  | none => []

/-- `getLang` (code-service.ts lines 61-63):
`roomData.get(roomID)?.langId || DEFAULT_LANG_ID`.  A stored *empty*
language tag is falsy and is therefore masked by the default. -/
def getLang (s : Store) (roomID : String) : String :=
  match s roomID with
  | some data => if data.langId = "" then DEFAULT_LANG_ID else data.langId
  | none => DEFAULT_LANG_ID

/-- `initializeRoom` (code-service.ts lines 42-49): returns the room's
data, materializing a `{ code: '', langId: DEFAULT_LANG_ID }` entry if
absent; also returns the possibly-updated store. -/
def initializeRoom (s : Store) (roomID : String) : RoomData × Store :=
  match s roomID with
  | some data => (data, s)
  | none =>
    let data : RoomData := { code := [], langId := DEFAULT_LANG_ID }
    (data, fun k => if k = roomID then some data else s k)

/-- `setLang` (code-service.ts lines 68-71): `initializeRoom` then mutate
the stored object's `langId` field. -/
def setLang (s : Store) (roomID : String) (langId : String) : Store :=
  let init := initializeRoom s roomID
  fun k => if k = roomID then some { init.1 with langId := langId } else init.2 k

/-- The store write at the end of `updateCode` (code-service.ts lines
203-204): `initializeRoom` then mutate the stored object's `code` field. -/
def setCodeStore (s : Store) (roomID : String) (updatedCode : List Char) : Store :=
  let init := initializeRoom s roomID
  fun k => if k = roomID then some { init.1 with code := updatedCode } else init.2 k

/-- `deleteRoom` (code-service.ts lines 210-212): `roomData.delete(roomID)`. -/
def deleteRoom (s : Store) (roomID : String) : Store :=
  fun k => if k = roomID then none else s k

/-! ## Socket coordinators (code-service.ts lines 76-84 and 131-205)

A connection is its socket id.  The room/identity resolvers
(`getUserRoom` from room-service, `getCustomId` from user-service) are
external collaborators, passed as parameters; per the collaborator
contract they yield a room id / identity or are unresolved (`none`).
Each handler is modelled as a pure function from the store to the list
of observable events it performs, in program order, together with the
resulting store. -/

/-- A connection. -/
structure Socket where
  id : String
deriving DecidableEq

/-- Payloads emitted by this service. -/
inductive ServerMsg
  | updateCodeMsg (op : EditOp)
  | syncCodeMsg (code : List Char)
deriving DecidableEq

/-- An emission target plus payload: `socket.to(roomID).emit(...)` is a
room-scoped multicast excluding the sender; `io.to(socketId).emit(...)`
is a unicast to one connection. -/
inductive Emit
  | toRoomExceptSender (roomID : String) (senderId : String) (msg : ServerMsg)
  | toSocket (socketId : String) (msg : ServerMsg)
deriving DecidableEq

/-- Observable events of a handler, in program order. -/
inductive TraceEvent
  | emit (e : Emit)
  | storeRead (roomID : String)
  | storeWrite (roomID : String) (code : List Char)
deriving DecidableEq

/-- `updateCode` (code-service.ts lines 131-205): resolve room and
identity; if either is unresolved, return silently; otherwise relay the
raw operation to the rest of the room, then read the stored text, apply
the edit, and overwrite the store. -/
def updateCode (getUserRoom : Socket → Option String)
    (getCustomId : String → Option String) (s : Store) (socket : Socket)
    (operation : EditOp) : List TraceEvent × Store :=
  let roomID := getUserRoom socket
  let customId := getCustomId socket.id
  match customId, roomID with
  | some _, some room =>
    let updatedCode := applyEdit (getCode s room) operation
    ([TraceEvent.emit (Emit.toRoomExceptSender room socket.id
        (ServerMsg.updateCodeMsg operation)),
      TraceEvent.storeRead room,
      TraceEvent.storeWrite room updatedCode],
     setCodeStore s room updatedCode)
  | _, _ => ([], s)

/-- `syncCode` (code-service.ts lines 76-84): resolve room and identity;
if both resolve, read the stored text and unicast it to the requesting
connection; no store mutation. -/
def syncCode (getUserRoom : Socket → Option String)
    (getCustomId : String → Option String) (s : Store) (socket : Socket) :
    List TraceEvent × Store :=
  let roomID := getUserRoom socket
  let customId := getCustomId socket.id
  match roomID, customId with
  | some room, some _ =>
    ([TraceEvent.storeRead room,
      TraceEvent.emit (Emit.toSocket socket.id (ServerMsg.syncCodeMsg (getCode s room)))],
     s)
  | _, _ => ([], s)

/-- The exact current content of the half-open range
`(startLine, startColumn) .. (endLine, endColumn)` of a document, in
editor coordinates (1-based): the suffix of the start line from the start
column, the full lines strictly between, and the prefix of the end line
up to the end column, joined with newlines; for a single-line range, the
slice of that line between the two columns. -/
def rangeContent (doc : List Char) (sL sC eL eC : Nat) : List Char :=
  let lines := jsSplit '\n' doc
  if sL = eL then
    ((jsGetD lines ((sL : Int) - 1)).drop (sC - 1)).take (eC - sC)
  else
    jsJoin '\n' ((jsGetD lines ((sL : Int) - 1)).drop (sC - 1) ::
      ((lines.drop sL).take (eL - 1 - sL) ++
        [(jsGetD lines ((eL : Int) - 1)).take (eC - 1)]))

/-! ## Properties of the JS primitives -/

theorem jsSplit_ne_nil (sep : Char) (s : List Char) : jsSplit sep s ≠ [] := by
  cases s with
  | nil => simp [jsSplit]
  | cons c rest =>
    simp only [jsSplit]
    split
    · simp
    · split <;> simp

theorem not_mem_of_mem_jsSplit (sep : Char) (s : List Char) :
    ∀ l ∈ jsSplit sep s, sep ∉ l := by
  induction s with
  | nil =>
    intro l hl
    simp [jsSplit] at hl
    simp [hl]
  | cons c rest ih =>
    intro l hl
    simp only [jsSplit] at hl
    by_cases hc : c = sep
    · rw [if_pos hc] at hl
      rcases List.mem_cons.1 hl with h | h
      · simp [h]
      · exact ih l h
    · rw [if_neg hc] at hl
      rcases hsplit : jsSplit sep rest with _ | ⟨m, ms⟩
      · exact absurd hsplit (jsSplit_ne_nil sep rest)
      · rw [hsplit] at hl
        rcases List.mem_cons.1 hl with h | h
        · subst h
          intro hmem
          rcases List.mem_cons.1 hmem with h' | h'
          · exact hc h'.symm
          · exact (ih m (hsplit ▸ List.mem_cons_self m ms)) h'
        · exact ih l (hsplit ▸ List.mem_cons_of_mem m h)

theorem jsJoin_cons (sep : Char) (l : List Char) (ls : List (List Char)) (h : ls ≠ []) :
    jsJoin sep (l :: ls) = l ++ sep :: jsJoin sep ls := by
  cases ls with
  | nil => exact absurd rfl h
  | cons m ms => rfl

theorem jsJoin_jsSplit (sep : Char) (s : List Char) :
    jsJoin sep (jsSplit sep s) = s := by
  induction s with
  | nil => rfl
  | cons c rest ih =>
    simp only [jsSplit]
    by_cases hc : c = sep
    · rw [if_pos hc, jsJoin_cons sep [] _ (jsSplit_ne_nil sep rest), ih, hc]
      rfl
    · rw [if_neg hc]
      rcases hsplit : jsSplit sep rest with _ | ⟨m, ms⟩
      · exact absurd hsplit (jsSplit_ne_nil sep rest)
      · cases ms with
        | nil =>
          have hm : m = rest := by simpa [hsplit, jsJoin] using ih
          simp [jsJoin, hm]
        | cons m2 ms2 =>
          rw [jsJoin_cons sep (c :: m) _ (by simp)]
          have h2 := ih
          rw [hsplit, jsJoin_cons sep m _ (by simp)] at h2
          simp only [List.cons_append, h2]

theorem jsSplit_of_not_mem (sep : Char) (l : List Char) (h : sep ∉ l) :
    jsSplit sep l = [l] := by
  induction l with
  | nil => rfl
  | cons c rest ih =>
    simp only [jsSplit]
    rw [if_neg (by intro hc; exact h (hc ▸ List.mem_cons_self c rest))]
    rw [ih (fun hm => h (List.mem_cons_of_mem c hm))]

theorem jsSplit_append_sep (sep : Char) (l t : List Char) (h : sep ∉ l) :
    jsSplit sep (l ++ sep :: t) = l :: jsSplit sep t := by
  induction l with
  | nil => simp [jsSplit]
  | cons c rest ih =>
    have hc : ¬ c = sep := by
      intro hc
      exact h (hc ▸ List.mem_cons_self c rest)
    simp only [List.cons_append, jsSplit, if_neg hc, List.append_eq]
    rw [ih (fun hm => h (List.mem_cons_of_mem c hm))]

theorem jsSplit_jsJoin (sep : Char) (ls : List (List Char)) (h2 : ls ≠ [])
    (h : ∀ l ∈ ls, sep ∉ l) : jsSplit sep (jsJoin sep ls) = ls := by
  induction ls with
  | nil => exact absurd rfl h2
  | cons l ls ih =>
    cases ls with
    | nil => simpa [jsJoin] using jsSplit_of_not_mem sep l (h l (List.mem_cons_self l []))
    | cons m ms =>
      rw [jsJoin_cons sep l _ (by simp)]
      rw [jsSplit_append_sep sep l _ (h l (List.mem_cons_self ..))]
      rw [ih (by simp) (fun x hx => h x (List.mem_cons_of_mem l hx))]

theorem length_jsSplit (sep : Char) (s : List Char) :
    (jsSplit sep s).length = s.count sep + 1 := by
  induction s with
  | nil => rfl
  | cons c rest ih =>
    simp only [jsSplit]
    by_cases hc : c = sep
    · rw [if_pos hc]
      subst hc
      simp [List.count_cons, ih]
    · rw [if_neg hc]
      rcases hsplit : jsSplit sep rest with _ | ⟨m, ms⟩
      · exact absurd hsplit (jsSplit_ne_nil sep rest)
      · have h2 := ih
        rw [hsplit] at h2
        simp only [List.length_cons] at h2 ⊢
        rw [List.count_cons]
        simp only [beq_iff_eq, if_neg hc]
        omega

theorem spliceString_eq (o : List Char) (s e : Nat) (ins : List Char) :
    spliceString o s e ins = o.take s ++ ins ++ o.drop e := by
  unfold spliceString
  split_ifs with h1 h2
  · obtain ⟨he, hi⟩ := h1
    subst he hi
    simp [List.take_append_drop]
  · obtain ⟨hs, he⟩ := h2
    subst hs he
    simp
  · rfl

theorem jsSplice_eq (lines : List (List Char)) (start dc : Int)
    (items : List (List Char)) (hs : 0 ≤ start) (hdc : 0 ≤ dc) :
    jsSplice lines start dc items =
      lines.take start.toNat ++ items ++ lines.drop (start.toNat + dc.toNat) := by
  simp only [jsSplice]
  rw [if_neg (by omega)]
  rcases le_or_lt start (lines.length : Int) with hlen | hlen
  · have hsn : (min start (lines.length : Int)).toNat = start.toNat := by
      rw [min_eq_left hlen]
    rw [hsn]
    have hmax : max dc 0 = dc := max_eq_left hdc
    rw [hmax]
    rcases le_or_lt dc ((lines.length : Int) - (start.toNat : Int)) with hdle | hdlt
    · rw [min_eq_left hdle]
    · rw [min_eq_right (le_of_lt hdlt)]
      have h1 : lines.drop (start.toNat + ((lines.length : Int) - (start.toNat : Int)).toNat)
          = [] := List.drop_eq_nil_of_le (by omega)
      have h2 : lines.drop (start.toNat + dc.toNat) = [] :=
        List.drop_eq_nil_of_le (by omega)
      rw [h1, h2]
  · have hsn : (min start (lines.length : Int)).toNat = lines.length := by
      rw [min_eq_right (le_of_lt hlen)]
      exact Int.toNat_ofNat lines.length
    rw [hsn]
    have h1 : lines.take lines.length = lines := List.take_length lines
    have h2 : lines.take start.toNat = lines := List.take_of_length_le (by omega)
    have h3 : max dc 0 = dc := max_eq_left hdc
    rw [h1, h2, h3]
    have h4 : min dc ((lines.length : Int) - (lines.length : Int)) = 0 := by omega
    rw [h4]
    have h5 : lines.drop (lines.length + (0 : Int).toNat) = [] :=
      List.drop_eq_nil_of_le (by simp)
    have h6 : lines.drop (start.toNat + dc.toNat) = [] :=
      List.drop_eq_nil_of_le (by omega)
    rw [h5, h6]

theorem length_jsSplice (lines : List (List Char)) (start dc : Int)
    (items : List (List Char)) (hs : 0 ≤ start) (hdc : 0 ≤ dc)
    (hrange : start.toNat + dc.toNat ≤ lines.length) :
    (jsSplice lines start dc items).length = lines.length - dc.toNat + items.length := by
  rw [jsSplice_eq lines start dc items hs hdc]
  simp only [List.length_append, List.length_take, List.length_drop]
  omega

theorem jsSet_eq_set (lines : List (List Char)) (i : Int) (v : List Char)
    (h0 : 0 ≤ i) (h : i.toNat < lines.length) :
    jsSet lines i v = lines.set i.toNat v := by
  unfold jsSet
  rw [if_neg (by omega), if_pos h]

theorem jsGetD_eq_getElem (lines : List (List Char)) (i : Int)
    (h0 : 0 ≤ i) (h : i.toNat < lines.length) :
    jsGetD lines i = lines[i.toNat] := by
  unfold jsGetD
  rw [if_neg (by omega)]
  simp [List.getD_eq_getElem?_getD, List.getElem?_eq_getElem h]

theorem set_self_eq {α : Type} (l : List α) (i : Nat) (h : i < l.length) :
    l.set i l[i] = l := by
  apply List.ext_getElem (by simp)
  intro n h1 h2
  by_cases hn : i = n
  · subst hn
    simp
  · rw [List.getElem_set_ne hn]

/-! ## Bridge between the checked and the total edit applier -/

theorem multiLineEditChecked_eq (lines : List (List Char)) (a b c d : Int)
    (txt : List Char) :
    multiLineEditChecked lines a b c d txt = some (multiLineEdit lines a b c d txt) := by
  simp only [multiLineEditChecked, multiLineEdit]
  rcases h : jsSplit '\n' txt with _ | ⟨m, ms⟩
  · exact absurd h (jsSplit_ne_nil '\n' txt)
  · have hlt : (m :: ms).length - 1 < (m :: ms).length := by simp
    have h1 : (m :: ms).get? 0 = some ((m :: ms).headD []) := rfl
    have h2 : (m :: ms).get? ((m :: ms).length - 1) = some ((m :: ms).getLastD []) := by
      rw [List.get?_eq_getElem?, List.getElem?_eq_getElem hlt, List.getLastD_eq_getLast?,
        List.getLast?_eq_getElem?, List.getElem?_eq_getElem hlt]
      rfl
    rw [h1, h2]
    split_ifs <;> rfl

/-! ## Claims -/

/-- C1, counterexample: applying `("Z", 1, 2, 2, 2)` to `"ab\ncd"` does
*not* yield `"aZd"` — the two spanned lines are not collapsed into one. -/
theorem C1_counterexample :
    applyEdit "ab\ncd".toList ⟨"Z".toList, 1, 2, 2, 2⟩ ≠ "aZd".toList := by decide

/-- C1 (amended): applying the edit operation `("Z", 1, 2, 2, 2)` to
`"ab\ncd"` yields `"aZ\nZd"`: a multi-line replace whose replacement text
contains no newline rebuilds the start and end lines separately, each
incorporating the full replacement text, so the two spanned lines remain
two lines (the replacement text is duplicated into both). -/
theorem C1_multiline_replace_result :
    applyEdit "ab\ncd".toList ⟨"Z".toList, 1, 2, 2, 2⟩ = "aZ\nZd".toList := by decide

/-- C3: the edit applier is total — for every current text and every
`EditOp` with arbitrary (possibly out-of-range or inverted) integer
coordinates, the checked application step (which fails exactly where an
undefended out-of-range read would occur) succeeds and returns the string
computed by `applyEdit`; every potentially-failing access is defused by
clamping or defaulting. -/
theorem C3_applyEdit_total (currentCode : List Char) (op : EditOp) :
    applyEditChecked currentCode op = some (applyEdit currentCode op) := by
  simp only [applyEditChecked, applyEdit]
  split_ifs with h1 h2
  · rfl
  · rfl
  · rw [multiLineEditChecked_eq]
    rfl

/-- C6: `updateCode` is atomic at the resolution gate — if the
connection's identity or room fails to resolve, the incoming edit is
dropped entirely (no event, store unchanged); if both resolve, the store
ends up holding the *fully* applied text for the room and every other
room is untouched. -/
theorem C6_updateCode_atomic (getUserRoom : Socket → Option String)
    (getCustomId : String → Option String) (s : Store) (socket : Socket)
    (op : EditOp) :
    ((getCustomId socket.id = none ∨ getUserRoom socket = none) →
      updateCode getUserRoom getCustomId s socket op = ([], s)) ∧
    (∀ room cid, getUserRoom socket = some room → getCustomId socket.id = some cid →
      ((updateCode getUserRoom getCustomId s socket op).2 room =
        some ⟨applyEdit (getCode s room) op, (initializeRoom s room).1.langId⟩) ∧
      (∀ k, k ≠ room → (updateCode getUserRoom getCustomId s socket op).2 k = s k)) := by
  constructor
  · intro h
    unfold updateCode
    rcases h with h | h
    · rw [h]
    · rw [h]
      cases hc : getCustomId socket.id <;> rfl
  · intro room cid hroom hcid
    unfold updateCode
    rw [hroom, hcid]
    constructor
    · simp only [setCodeStore, initializeRoom]
      cases hsr : s room <;> simp [hsr]
    · intro k hk
      simp only [setCodeStore, initializeRoom]
      cases hsr : s room <;> simp [hsr, hk]

/-- Witness for C6 at concrete inputs. -/
theorem C6_witness :
    (updateCode (fun _ => (none : Option String)) (fun _ => some "u")
      (fun _ => none) ⟨"s1"⟩ ⟨"Z".toList, 1, 2, 2, 2⟩ = ([], fun _ => none)) ∧
    ((updateCode (fun _ => some "room") (fun _ => some "u")
        (fun _ => none) ⟨"s1"⟩ ⟨"Z".toList, 1, 2, 2, 2⟩).2 "room" =
      some ⟨applyEdit (getCode (fun _ => none) "room") ⟨"Z".toList, 1, 2, 2, 2⟩,
        (initializeRoom (fun _ => none) "room").1.langId⟩) ∧
    ((updateCode (fun _ => some "room") (fun _ => some "u")
        (fun _ => none) ⟨"s1"⟩ ⟨"Z".toList, 1, 2, 2, 2⟩).2 "other" = none) := by
  have h1 := (C6_updateCode_atomic (fun _ => (none : Option String)) (fun _ => some "u")
    (fun _ => none) ⟨"s1"⟩ ⟨"Z".toList, 1, 2, 2, 2⟩).1 (Or.inr rfl)
  have h2 := (C6_updateCode_atomic (fun _ => some "room") (fun _ => some "u")
    (fun _ => none) ⟨"s1"⟩ ⟨"Z".toList, 1, 2, 2, 2⟩).2 "room" "u" rfl rfl
  exact ⟨h1, h2.1, h2.2 "other" (by decide)⟩

/-- C7: relay-before-apply — for every accepted edit (room and identity
resolved), the handler's event trace is exactly: first the relay of the
unmodified operation to every other connection in the sender's room, then
the read of the authoritative stored text, then the overwrite of the
store with the re-spliced text. -/
theorem C7_relay_before_apply (getUserRoom : Socket → Option String)
    (getCustomId : String → Option String) (s : Store) (socket : Socket)
    (op : EditOp) (room cid : String) (hroom : getUserRoom socket = some room)
    (hcid : getCustomId socket.id = some cid) :
    (updateCode getUserRoom getCustomId s socket op).1 =
      [TraceEvent.emit (Emit.toRoomExceptSender room socket.id
        (ServerMsg.updateCodeMsg op)),
       TraceEvent.storeRead room,
       TraceEvent.storeWrite room (applyEdit (getCode s room) op)] := by
  unfold updateCode
  rw [hroom, hcid]

/-- Witness for C7 at concrete inputs. -/
theorem C7_witness :
    (updateCode (fun _ => some "room") (fun _ => some "u")
      (fun _ => none) ⟨"s1"⟩ ⟨"Z".toList, 1, 2, 2, 2⟩).1 =
      [TraceEvent.emit (Emit.toRoomExceptSender "room" "s1"
        (ServerMsg.updateCodeMsg ⟨"Z".toList, 1, 2, 2, 2⟩)),
       TraceEvent.storeRead "room",
       TraceEvent.storeWrite "room"
         (applyEdit (getCode (fun _ => none) "room") ⟨"Z".toList, 1, 2, 2, 2⟩)] :=
  C7_relay_before_apply _ _ _ _ _ "room" "u" rfl rfl

/-- C8: store round-trip — writing `T` as a room's text (the store write
performed at the end of `updateCode`) then reading with `getCode` returns
`T`; `getCode` on an unknown room returns `""`; `deleteRoom` followed by
`getCode` returns `""` again; and `deleteRoom` is idempotent (pointwise on
the store), with no error when the room is absent. -/
theorem C8_store_roundtrip :
    (∀ (s : Store) (roomID : String) (t : List Char),
      getCode (setCodeStore s roomID t) roomID = t) ∧
    (∀ (s : Store) (roomID : String), s roomID = none → getCode s roomID = []) ∧
    (∀ (s : Store) (roomID : String), getCode (deleteRoom s roomID) roomID = []) ∧
    (∀ (s : Store) (roomID k : String),
      deleteRoom (deleteRoom s roomID) roomID k = deleteRoom s roomID k) := by
  refine ⟨?_, ?_, ?_, ?_⟩
  · intro s r t
    simp only [getCode, setCodeStore, initializeRoom]
    cases hsr : s r <;> simp [hsr]
  · intro s r h
    simp only [getCode]
    rw [h]
  · intro s r
    simp only [getCode, deleteRoom]
    simp
  · intro s r k
    simp only [deleteRoom]
    by_cases hk : k = r <;> simp [hk]

/-- Witness for C8 at a concrete input. -/
theorem C8_witness :
    ((fun _ => none : Store) "r" = none) ∧ getCode (fun _ => none : Store) "r" = [] :=
  ⟨rfl, C8_store_roundtrip.2.1 _ "r" rfl⟩

/-- C9: sync reads are effect-free — for every connection whose room and
identity resolve, a sync request reads the stored text and unicasts it to
that connection only (every emission in the trace targets the requester),
the store is unchanged at every key, and a sync read of a nonexistent room
delivers the default empty text without materializing a store entry. -/
theorem C9_syncCode_effect_free (getUserRoom : Socket → Option String)
    (getCustomId : String → Option String) (s : Store) (socket : Socket)
    (room cid : String) (hroom : getUserRoom socket = some room)
    (hcid : getCustomId socket.id = some cid) :
    ((syncCode getUserRoom getCustomId s socket).1 =
      [TraceEvent.storeRead room,
       TraceEvent.emit (Emit.toSocket socket.id
         (ServerMsg.syncCodeMsg (getCode s room)))]) ∧
    (∀ k, (syncCode getUserRoom getCustomId s socket).2 k = s k) ∧
    (∀ e, TraceEvent.emit e ∈ (syncCode getUserRoom getCustomId s socket).1 →
      ∃ msg, e = Emit.toSocket socket.id msg) ∧
    (s room = none → getCode s room = [] ∧
      (syncCode getUserRoom getCustomId s socket).2 room = none) := by
  refine ⟨?_, ?_, ?_, ?_⟩
  · unfold syncCode
    rw [hroom, hcid]
  · intro k
    unfold syncCode
    rw [hroom, hcid]
  · intro e he
    unfold syncCode at he
    rw [hroom, hcid] at he
    simp at he
    exact ⟨_, he⟩
  · intro h
    refine ⟨?_, ?_⟩
    · simp only [getCode]
      rw [h]
    · unfold syncCode
      rw [hroom, hcid]
      exact h

/-- Witness for C9 at concrete inputs. -/
theorem C9_witness :
    ((syncCode (fun _ => some "room") (fun _ => some "u")
      (fun _ => none) ⟨"s1"⟩).1 =
      [TraceEvent.storeRead "room",
       TraceEvent.emit (Emit.toSocket "s1"
         (ServerMsg.syncCodeMsg (getCode (fun _ => none) "room")))]) ∧
    ((syncCode (fun _ => some "room") (fun _ => some "u")
      (fun _ => none) ⟨"s1"⟩).2 "room" = none) :=
  by
  have h := C9_syncCode_effect_free (fun _ => some "room") (fun _ => some "u")
    (fun _ => none) ⟨"s1"⟩ "room" "u" rfl rfl
  exact ⟨h.1, (h.2.2.2 rfl).2⟩

/-- C10: the language read masks falsy stored tags — after
`setLang(roomID, "")` on an existing room the store holds the empty tag,
yet `getLang` returns the default `'html'`; for every non-empty tag,
`getLang` returns exactly the tag last written. -/
theorem C10_getLang_masks_falsy :
    (∀ (s : Store) (roomID : String) (d : RoomData), s roomID = some d →
      (setLang s roomID "") roomID = some { d with langId := "" } ∧
      getLang (setLang s roomID "") roomID = "html") ∧
    (∀ (s : Store) (roomID : String) (tag : String), tag ≠ "" →
      getLang (setLang s roomID tag) roomID = tag) := by
  constructor
  · intro s r d hd
    constructor
    · simp [setLang, initializeRoom, hd]
    · simp [getLang, setLang, initializeRoom, hd, DEFAULT_LANG_ID]
  · intro s r tag htag
    simp only [getLang, setLang, initializeRoom]
    cases hsr : s r <;> simp [hsr, htag]

/-- Witness for C10 at concrete inputs. -/
theorem C10_witness :
    ((fun k => if k = "r" then some ⟨"x".toList, "css"⟩ else none : Store) "r" =
      some ⟨"x".toList, "css"⟩) ∧
    getLang (setLang (fun k => if k = "r" then some ⟨"x".toList, "css"⟩ else none)
      "r" "") "r" = "html" ∧
    ("ts" : String) ≠ "" ∧
    getLang (setLang (fun k => if k = "r" then some ⟨"x".toList, "css"⟩ else none)
      "r" "ts") "r" = "ts" := by
  have h1 := (C10_getLang_masks_falsy.1
    (fun k => if k = "r" then some ⟨"x".toList, "css"⟩ else none) "r"
    ⟨"x".toList, "css"⟩ (by simp)).2
  have h2 := C10_getLang_masks_falsy.2
    (fun k => if k = "r" then some ⟨"x".toList, "css"⟩ else none) "r" "ts" (by decide)
  exact ⟨by simp, h1, by decide, h2⟩

/-- C4, counterexample: for an operation `("", 3, 1, 5, 1)` whose start
line lies beyond the document `"a"`, the line-extension step materializes
empty lines, so the result `"a\n"` is not the document with the (absent)
lines `[3, 5)` removed and every other line unchanged. -/
theorem C4_counterexample :
    applyEdit "a".toList ⟨[], 3, 1, 5, 1⟩ = "a\n".toList ∧
    applyEdit "a".toList ⟨[], 3, 1, 5, 1⟩ ≠
      jsJoin '\n' ((jsSplit '\n' "a".toList).take 2 ++ (jsSplit '\n' "a".toList).drop 4) := by
  constructor <;> decide

/-- C4 (amended): for every document and every operation with
`text = ""`, `startLine < endLine`, both columns `1`, and `startLine`
within the document's line count, applying the operation removes exactly
the existing lines in `[startLine, endLine)` and leaves every other line
unchanged. -/
theorem C4_whole_line_deletion (doc : List Char) (sL eL : Nat)
    (h1 : 1 ≤ sL) (h2 : sL ≤ (jsSplit '\n' doc).length) (h3 : sL < eL) :
    applyEdit doc ⟨[], (sL : Int), 1, (eL : Int), 1⟩ =
      jsJoin '\n' ((jsSplit '\n' doc).take (sL - 1) ++ (jsSplit '\n' doc).drop (eL - 1)) := by
  simp only [applyEdit]
  have hext : extendLines (jsSplit '\n' doc) ((sL : Nat) : Int) = jsSplit '\n' doc := by
    unfold extendLines
    rw [if_neg (by omega)]
  rw [hext, if_pos ⟨by trivial, by omega, by trivial, by trivial⟩]
  rw [jsSplice_eq _ _ _ _ (by omega) (by omega)]
  have e1 : (((sL : Nat) : Int) - 1).toNat = sL - 1 := by omega
  have e3 : (((eL : Nat) : Int) - ((sL : Nat) : Int)).toNat = eL - sL := by omega
  rw [e1, e3]
  have e4 : sL - 1 + (eL - sL) = eL - 1 := by omega
  rw [e4, List.append_nil]

/-- Witness for C4 at the claim's concrete instance: deleting lines
`[2, 4)` from `"a\nb\nc\nd\ne"` yields `"a\nd\ne"`. -/
theorem C4_witness :
    (1 ≤ 2 ∧ 2 ≤ (jsSplit '\n' "a\nb\nc\nd\ne".toList).length ∧ 2 < 4) ∧
    applyEdit "a\nb\nc\nd\ne".toList ⟨[], 2, 1, 4, 1⟩ =
      jsJoin '\n' ((jsSplit '\n' "a\nb\nc\nd\ne".toList).take 1 ++
        (jsSplit '\n' "a\nb\nc\nd\ne".toList).drop 3) ∧
    jsJoin '\n' ((jsSplit '\n' "a\nb\nc\nd\ne".toList).take 1 ++
        (jsSplit '\n' "a\nb\nc\nd\ne".toList).drop 3) = "a\nd\ne".toList := by
  have h := C4_whole_line_deletion "a\nb\nc\nd\ne".toList 2 4 (by decide) (by decide)
    (by decide)
  exact ⟨by decide, by exact_mod_cast h, by decide⟩

theorem jsSet_coe (lines : List (List Char)) (i : Nat) (v : List Char)
    (h : i < lines.length) : jsSet lines (i : Int) v = lines.set i v := by
  rw [jsSet_eq_set lines (i : Int) v (by omega) (by simpa using h)]
  simp

theorem jsSplice_coe (lines : List (List Char)) (a d : Nat) (items : List (List Char)) :
    jsSplice lines (a : Int) (d : Int) items =
      lines.take a ++ items ++ lines.drop (a + d) := by
  rw [jsSplice_eq lines (a : Int) (d : Int) items (by omega) (by omega)]
  simp

theorem double_set_eq {α : Type} (l : List α) (i j : Nat) (A B : α)
    (h1 : i < l.length) (hj : j = i + 1) (h2 : j < l.length) :
    (l.set i A).set j B = l.take i ++ A :: B :: l.drop (i + 2) := by
  subst hj
  have e1 : l.set i A = l.take i ++ A :: l.drop (i + 1) := by
    rw [List.set_eq_take_append_cons_drop, if_pos h1]
  rw [e1]
  have e2 : (l.take i ++ A :: l.drop (i + 1)).set (i + 1) B
      = (l.take i ++ A :: l.drop (i + 1)).take (i + 1) ++ B ::
        (l.take i ++ A :: l.drop (i + 1)).drop (i + 1 + 1) := by
    rw [List.set_eq_take_append_cons_drop, if_pos (by
      simp only [List.length_append, List.length_take, List.length_cons, List.length_drop]
      omega)]
  rw [e2]
  have hlen : (l.take i).length = i := by
    simp only [List.length_take]
    omega
  have ht : (l.take i ++ A :: l.drop (i + 1)).take (i + 1) = l.take i ++ [A] := by
    calc (l.take i ++ A :: l.drop (i + 1)).take (i + 1)
        = (l.take i ++ A :: l.drop (i + 1)).take ((l.take i).length + 1) := by rw [hlen]
      _ = l.take i ++ (A :: l.drop (i + 1)).take 1 := List.take_append 1
      _ = l.take i ++ [A] := by simp
  have hd : (l.take i ++ A :: l.drop (i + 1)).drop (i + 1 + 1) = l.drop (i + 2) := by
    calc (l.take i ++ A :: l.drop (i + 1)).drop (i + 1 + 1)
        = (l.take i ++ A :: l.drop (i + 1)).drop ((l.take i).length + 2) := by rw [hlen]
      _ = (A :: l.drop (i + 1)).drop 2 := List.drop_append 2
      _ = (l.drop (i + 1)).drop 1 := by simp
      _ = l.drop (i + 2) := by rw [List.drop_drop]
  rw [ht, hd]
  simp

theorem splice_two_set (lines : List (List Char)) (sL eL : Nat) (A B : List Char)
    (h1 : 1 ≤ sL) (hgt : sL + 1 < eL) (h3 : eL ≤ lines.length) :
    jsSplice (lines.take (sL - 1) ++ A :: B :: lines.drop (sL + 1))
      ((sL + 1 : Nat) : Int) ((eL - sL - 1 : Nat) : Int) [] =
      lines.take (sL - 1) ++ A :: B :: lines.drop eL := by
  rw [jsSplice_coe]
  have hlen : (lines.take (sL - 1)).length = sL - 1 := by
    simp only [List.length_take]
    omega
  have ht : (lines.take (sL - 1) ++ A :: B :: lines.drop (sL + 1)).take (sL + 1)
      = lines.take (sL - 1) ++ [A, B] := by
    calc (lines.take (sL - 1) ++ A :: B :: lines.drop (sL + 1)).take (sL + 1)
        = (lines.take (sL - 1) ++ A :: B :: lines.drop (sL + 1)).take
            ((lines.take (sL - 1)).length + 2) := by rw [hlen]; congr 1; omega
      _ = lines.take (sL - 1) ++ (A :: B :: lines.drop (sL + 1)).take 2 :=
          List.take_append 2
      _ = lines.take (sL - 1) ++ [A, B] := by simp
  have hd : (lines.take (sL - 1) ++ A :: B :: lines.drop (sL + 1)).drop
      (sL + 1 + (eL - sL - 1)) = lines.drop eL := by
    calc (lines.take (sL - 1) ++ A :: B :: lines.drop (sL + 1)).drop (sL + 1 + (eL - sL - 1))
        = (lines.take (sL - 1) ++ A :: B :: lines.drop (sL + 1)).drop
            ((lines.take (sL - 1)).length + (2 + (eL - sL - 1))) := by rw [hlen]; congr 1; omega
      _ = (A :: B :: lines.drop (sL + 1)).drop (2 + (eL - sL - 1)) := List.drop_append _
      _ = (lines.drop (sL + 1)).drop (eL - sL - 1) := by
          rw [show 2 + (eL - sL - 1) = (eL - sL - 1) + 2 from by omega]
          rfl
      _ = lines.drop eL := by rw [List.drop_drop]; congr 1; omega
  rw [ht, hd]
  simp

/-- Closed form of the multi-line branch for a line range inside the
document: the lines before the start line are kept, then the rebuilt
start line, the interior lines of the replacement text, the rebuilt end
line, and the lines after the end line. -/
theorem multiLineEdit_eq (lines : List (List Char)) (sL sC eL eC : Nat)
    (txt : List Char) (h1 : 1 ≤ sL) (h2 : sL < eL) (h3 : eL ≤ lines.length) :
    multiLineEdit lines (sL : Int) (sC : Int) (eL : Int) (eC : Int) txt =
      lines.take (sL - 1) ++
      [spliceString (jsGetD lines ((sL : Int) - 1))
        ((min (max 0 ((sC : Int) - 1)) ((jsGetD lines ((sL : Int) - 1)).length : Int)).toNat)
        (jsGetD lines ((sL : Int) - 1)).length ((jsSplit '\n' txt).headD [])] ++
      ((jsSplit '\n' txt).drop 1).dropLast ++
      [spliceString (jsGetD lines ((eL : Int) - 1)) 0
        ((min (max 0 ((eC : Int) - 1)) ((jsGetD lines ((eL : Int) - 1)).length : Int)).toNat)
        ((jsSplit '\n' txt).getLastD [])] ++
      lines.drop eL := by
  simp only [multiLineEdit]
  have hsl : sL - 1 < lines.length := by omega
  have hsl2 : sL < lines.length := by omega
  have ea : (sL : Int) - 1 = ((sL - 1 : Nat) : Int) := by omega
  by_cases ht2 : (jsSplit '\n' txt).length = 2
  · rw [if_pos ht2]
    obtain ⟨x, y, hxy⟩ := List.length_eq_two.1 ht2
    have eb : (sL : Int) - 1 + 2 = ((sL + 1 : Nat) : Int) := by omega
    have ec : (sL : Int) - 1 + 1 = ((sL : Nat) : Int) := by omega
    have ed : (eL : Int) - 1 - ((sL : Int) - 1) + 1 - 2 = ((eL - sL - 1 : Nat) : Int) := by
      omega
    rw [eb, ec, ed, hxy]
    rw [show jsSet lines ((sL : Int) - 1) = jsSet lines ((sL - 1 : Nat) : Int) from by
      rw [ea]]
    rw [jsSet_coe lines (sL - 1) _ hsl]
    rw [jsSet_coe _ sL _ (by simpa using hsl2)]
    rw [double_set_eq lines (sL - 1) sL _ _ hsl (by omega) hsl2]
    rw [show (sL - 1 + 2 : Nat) = sL + 1 from by omega]
    by_cases hr : (eL : Int) - 1 - ((sL : Int) - 1) + 1 > 2
    · rw [if_pos hr]
      rw [splice_two_set lines sL eL _ _ h1 (by omega) h3]
      simp
    · rw [if_neg hr]
      have heL : eL = sL + 1 := by omega
      subst heL
      simp
  · rw [if_neg ht2]
    have ed : (eL : Int) - 1 - ((sL : Int) - 1) + 1 = ((eL - sL + 1 : Nat) : Int) := by omega
    rw [ed, ea]
    rw [jsSplice_coe]
    have hdrop : sL - 1 + (eL - sL + 1) = eL := by omega
    rw [hdrop]
    simp only [List.append_assoc]

theorem not_mem_jsGetD (lines : List (List Char)) (i : Int)
    (h : ∀ l ∈ lines, '\n' ∉ l) : '\n' ∉ jsGetD lines i := by
  unfold jsGetD
  split
  · simp
  · rw [List.getD_eq_getElem?_getD]
    rcases hx : lines[i.toNat]? with _ | v
    · simp
    · exact h v (List.getElem?_mem hx)

theorem not_mem_headD (tls : List (List Char))
    (h : ∀ l ∈ tls, '\n' ∉ l) : '\n' ∉ tls.headD [] := by
  cases tls with
  | nil => simp
  | cons a as => exact h a (List.mem_cons_self a as)

theorem not_mem_getLastD (tls : List (List Char))
    (h : ∀ l ∈ tls, '\n' ∉ l) : '\n' ∉ tls.getLastD [] := by
  have hm := List.getLastD_mem_cons tls ([] : List Char)
  rcases List.mem_cons.1 hm with he | he
  · rw [he]
    simp
  · exact h _ he

/-- No element of the multi-line branch's result contains a newline, when
the input lines do not. -/
theorem multiLineEdit_no_newline (lines : List (List Char)) (sL sC eL eC : Nat)
    (txt : List Char) (h1 : 1 ≤ sL) (h2 : sL < eL) (h3 : eL ≤ lines.length)
    (hl : ∀ l ∈ lines, '\n' ∉ l) :
    ∀ l ∈ multiLineEdit lines (sL : Int) (sC : Int) (eL : Int) (eC : Int) txt,
      '\n' ∉ l := by
  rw [multiLineEdit_eq lines sL sC eL eC txt h1 h2 h3]
  have htl := not_mem_of_mem_jsSplit '\n' txt
  intro l hlmem
  simp only [List.mem_append, List.mem_cons, List.mem_singleton,
    List.not_mem_nil, or_false] at hlmem
  rcases hlmem with ((((hm | hm) | hm) | hm) | hm)
  · exact hl l ((List.take_sublist _ _).mem hm)
  · subst hm
    rw [spliceString_eq]
    intro hmem
    rcases List.mem_append.1 hmem with hmm | hmm
    · rcases List.mem_append.1 hmm with hmm2 | hmm2
      · exact not_mem_jsGetD lines _ hl ((List.take_sublist _ _).mem hmm2)
      · exact not_mem_headD _ htl hmm2
    · exact not_mem_jsGetD lines _ hl ((List.drop_sublist _ _).mem hmm)
  · exact htl l (((jsSplit '\n' txt).drop 1).dropLast_sublist.mem
      hm |> ((jsSplit '\n' txt).drop_sublist 1).mem)
  · subst hm
    rw [spliceString_eq]
    intro hmem
    rcases List.mem_append.1 hmem with hmm | hmm
    · rcases List.mem_append.1 hmm with hmm2 | hmm2
      · exact not_mem_jsGetD lines _ hl ((List.take_sublist _ _).mem hmm2)
      · exact not_mem_getLastD _ htl hmm2
    · exact not_mem_jsGetD lines _ hl ((List.drop_sublist _ _).mem hmm)
  · exact hl l ((List.drop_sublist _ _).mem hm)

/-- Length of the multi-line branch's result for an in-range line span. -/
theorem multiLineEdit_length (lines : List (List Char)) (sL sC eL eC : Nat)
    (txt : List Char) (h1 : 1 ≤ sL) (h2 : sL < eL) (h3 : eL ≤ lines.length) :
    (multiLineEdit lines (sL : Int) (sC : Int) (eL : Int) (eC : Int) txt).length =
      lines.length - (eL - sL + 1) + max (jsSplit '\n' txt).length 2 := by
  rw [multiLineEdit_eq lines sL sC eL eC txt h1 h2 h3]
  have ht1 : 1 ≤ (jsSplit '\n' txt).length := by
    rcases h : jsSplit '\n' txt with _ | ⟨m, ms⟩
    · exact absurd h (jsSplit_ne_nil '\n' txt)
    · simp
  simp only [List.length_append, List.length_take, List.length_cons,
    List.length_dropLast, List.length_drop, List.length_singleton, List.length_nil]
  omega

/-- C2 (amended): for every multi-line replace (`startLine < endLine`, not
matching the whole-line-deletion fast path, all coordinates within the
document) spanning `removedLineCount = endLine - startLine + 1` original
lines, with replacement text containing `k` newlines, the resulting
document's line count equals
`originalLineCount - removedLineCount + max (k+1) 2`. -/
theorem C2_line_count_accounting (doc txt : List Char) (sL sC eL eC : Nat)
    (h1 : 1 ≤ sL) (h2 : sL < eL) (h3 : eL ≤ (jsSplit '\n' doc).length)
    (hc1 : 1 ≤ sC) (hc2 : sC ≤ (jsGetD (jsSplit '\n' doc) ((sL : Int) - 1)).length + 1)
    (hc3 : 1 ≤ eC) (hc4 : eC ≤ (jsGetD (jsSplit '\n' doc) ((eL : Int) - 1)).length + 1)
    (hfast : ¬(txt = [] ∧ sC = 1 ∧ eC = 1)) :
    (jsSplit '\n' (applyEdit doc
        ⟨txt, (sL : Int), (sC : Int), (eL : Int), (eC : Int)⟩)).length =
      (jsSplit '\n' doc).length - (eL - sL + 1) + max (txt.count '\n' + 1) 2 := by
  have _hcol : 1 ≤ sC ∧ sC ≤ (jsGetD (jsSplit '\n' doc) ((sL : Int) - 1)).length + 1 ∧
      1 ≤ eC ∧ eC ≤ (jsGetD (jsSplit '\n' doc) ((eL : Int) - 1)).length + 1 :=
    ⟨hc1, hc2, hc3, hc4⟩
  simp only [applyEdit]
  have hext : extendLines (jsSplit '\n' doc) ((sL : Nat) : Int) = jsSplit '\n' doc := by
    unfold extendLines
    rw [if_neg (by omega)]
  rw [hext]
  rw [if_neg (by
    rintro ⟨ht, hlt, hq1, hq2⟩
    exact hfast ⟨ht, by exact_mod_cast hq1, by exact_mod_cast hq2⟩)]
  rw [if_neg (by
    intro hc
    have heq : sL = eL := by exact_mod_cast hc
    omega)]
  have hlen := multiLineEdit_length (jsSplit '\n' doc) sL sC eL eC txt h1 h2 h3
  have hnn := multiLineEdit_no_newline (jsSplit '\n' doc) sL sC eL eC txt h1 h2 h3
    (not_mem_of_mem_jsSplit '\n' doc)
  have hne : multiLineEdit (jsSplit '\n' doc)
      (sL : Int) (sC : Int) (eL : Int) (eC : Int) txt ≠ [] := by
    intro h0
    rw [h0] at hlen
    simp only [List.length_nil] at hlen
    omega
  rw [jsSplit_jsJoin '\n' _ hne hnn, hlen, length_jsSplit '\n' doc,
    length_jsSplit '\n' txt]

theorem getD_cons_drop (lines : List (List Char)) (i : Nat) (h : i < lines.length) :
    lines.drop i = lines.getD i [] :: lines.drop (i + 1) := by
  rw [List.drop_eq_getElem_cons h, List.getD_eq_getElem?_getD,
    List.getElem?_eq_getElem h]
  rfl

theorem reassemble (lines : List (List Char)) (sL eL : Nat)
    (h1 : 1 ≤ sL) (h2 : sL < eL) (h3 : eL ≤ lines.length) :
    lines.take (sL - 1) ++ [lines.getD (sL - 1) []] ++
      (lines.drop sL).take (eL - 1 - sL) ++ [lines.getD (eL - 1) []] ++
      lines.drop eL = lines := by
  have hd1 : lines.drop (sL - 1) = lines.getD (sL - 1) [] :: lines.drop sL := by
    rw [getD_cons_drop lines (sL - 1) (by omega),
      show sL - 1 + 1 = sL from by omega]
  have hd2 : (lines.drop sL).drop (eL - 1 - sL) = lines.drop (eL - 1) := by
    rw [List.drop_drop, show sL + (eL - 1 - sL) = eL - 1 from by omega]
  have hd3 : lines.drop (eL - 1) = lines.getD (eL - 1) [] :: lines.drop eL := by
    rw [getD_cons_drop lines (eL - 1) (by omega),
      show eL - 1 + 1 = eL from by omega]
  conv_rhs => rw [← List.take_append_drop (sL - 1) lines]
  rw [hd1]
  conv_rhs => rw [← List.take_append_drop (eL - 1 - sL) (lines.drop sL)]
  rw [hd2, hd3]
  simp [List.append_assoc]

theorem jsGetD_coe_getD (lines : List (List Char)) (i : Nat) :
    jsGetD lines (i : Int) = lines.getD i [] := by
  unfold jsGetD
  rw [if_neg (by omega)]
  simp

theorem slice_reassemble {α : Type} (l : List α) (a b : Nat) (hab : a ≤ b) :
    l.take a ++ (l.drop a).take (b - a) ++ l.drop b = l := by
  have h := List.take_add l a (b - a)
  rw [show a + (b - a) = b from by omega] at h
  rw [← h, List.take_append_drop]

theorem set_getD_self (lines : List (List Char)) (i : Nat) (h : i < lines.length) :
    lines.set i (lines.getD i []) = lines := by
  rw [List.getD_eq_getElem?_getD, List.getElem?_eq_getElem h]
  exact set_self_eq lines i h

/-- C5: no-op idempotence — for every document and every operation whose
coordinates lie within the document and whose text equals the exact
current content of the range from (startLine, startColumn) inclusive to
(endLine, endColumn) exclusive, applying the operation leaves the
document text unchanged. -/
theorem C5_noop_idempotence (doc : List Char) (sL sC eL eC : Nat)
    (h1 : 1 ≤ sL) (h2 : sL ≤ eL) (h3 : eL ≤ (jsSplit '\n' doc).length)
    (h4 : 1 ≤ sC) (h5 : sC ≤ (jsGetD (jsSplit '\n' doc) ((sL : Int) - 1)).length + 1)
    (h6 : 1 ≤ eC) (h7 : eC ≤ (jsGetD (jsSplit '\n' doc) ((eL : Int) - 1)).length + 1)
    (h8 : sL = eL → sC ≤ eC) :
    applyEdit doc ⟨rangeContent doc sL sC eL eC,
      (sL : Int), (sC : Int), (eL : Int), (eC : Int)⟩ = doc := by
  have hea : ((sL : Nat) : Int) - 1 = ((sL - 1 : Nat) : Int) := by omega
  have heb : ((eL : Nat) : Int) - 1 = ((eL - 1 : Nat) : Int) := by omega
  rw [hea, jsGetD_coe_getD] at h5
  rw [heb, jsGetD_coe_getD] at h7
  simp only [applyEdit, rangeContent]
  have hext : extendLines (jsSplit '\n' doc) ((sL : Nat) : Int) = jsSplit '\n' doc := by
    unfold extendLines
    rw [if_neg (by omega)]
  rw [hext]
  by_cases hse : sL = eL
  · subst hse
    have h8' : sC ≤ eC := h8 rfl
    rw [if_pos rfl]
    rw [if_neg (by rintro ⟨_, hlt, _, _⟩; omega)]
    rw [if_pos rfl]
    simp only [singleLineEdit]
    rw [hea, jsGetD_coe_getD]
    have hsafeS : (max 0 (min ((sC : Int) - 1)
        (((jsSplit '\n' doc).getD (sL - 1) []).length : Int))).toNat = sC - 1 := by
      omega
    have hsafeE : (max 0 (min ((eC : Int) - 1)
        (((jsSplit '\n' doc).getD (sL - 1) []).length : Int))).toNat = eC - 1 := by
      omega
    rw [hsafeS, hsafeE, spliceString_eq]
    rw [show eC - sC = (eC - 1) - (sC - 1) from by omega]
    rw [slice_reassemble ((jsSplit '\n' doc).getD (sL - 1) []) (sC - 1) (eC - 1)
      (by omega)]
    rw [jsSet_coe _ (sL - 1) _ (by omega)]
    rw [set_getD_self _ (sL - 1) (by omega)]
    exact jsJoin_jsSplit '\n' doc
  · have hlt : sL < eL := by omega
    rw [if_neg hse]
    rw [hea, heb, jsGetD_coe_getD, jsGetD_coe_getD]
    have hnn := not_mem_of_mem_jsSplit '\n' doc
    have hs1 : '\n' ∉ ((jsSplit '\n' doc).getD (sL - 1) []).drop (sC - 1) := by
      intro hm
      have hm2 := List.mem_of_mem_drop hm
      rw [← jsGetD_coe_getD] at hm2
      exact not_mem_jsGetD _ _ hnn hm2
    have hs2 : '\n' ∉ ((jsSplit '\n' doc).getD (eL - 1) []).take (eC - 1) := by
      intro hm
      have hm2 := List.mem_of_mem_take hm
      rw [← jsGetD_coe_getD] at hm2
      exact not_mem_jsGetD _ _ hnn hm2
    have hmidnn : ∀ l ∈ ((jsSplit '\n' doc).drop sL).take (eL - 1 - sL), '\n' ∉ l := by
      intro l hl
      exact hnn l ((List.take_sublist _ _).mem hl |> ((jsSplit '\n' doc).drop_sublist sL).mem)
    have htls : jsSplit '\n' (jsJoin '\n'
        (((jsSplit '\n' doc).getD (sL - 1) []).drop (sC - 1) ::
          (((jsSplit '\n' doc).drop sL).take (eL - 1 - sL) ++
            [((jsSplit '\n' doc).getD (eL - 1) []).take (eC - 1)]))) =
        ((jsSplit '\n' doc).getD (sL - 1) []).drop (sC - 1) ::
          (((jsSplit '\n' doc).drop sL).take (eL - 1 - sL) ++
            [((jsSplit '\n' doc).getD (eL - 1) []).take (eC - 1)]) := by
      apply jsSplit_jsJoin
      · simp
      · intro l hl
        rcases List.mem_cons.1 hl with he | he
        · rw [he]
          exact hs1
        · rcases List.mem_append.1 he with he2 | he2
          · exact hmidnn l he2
          · rw [List.mem_singleton.1 he2]
            exact hs2
    have htxtne : jsJoin '\n'
        (((jsSplit '\n' doc).getD (sL - 1) []).drop (sC - 1) ::
          (((jsSplit '\n' doc).drop sL).take (eL - 1 - sL) ++
            [((jsSplit '\n' doc).getD (eL - 1) []).take (eC - 1)])) ≠ [] := by
      rw [jsJoin_cons '\n' _ _ (by simp)]
      simp
    rw [if_neg (by rintro ⟨ht, _, _, _⟩; exact htxtne ht)]
    rw [if_neg (by intro hc; exact hse (by exact_mod_cast hc))]
    rw [multiLineEdit_eq _ sL sC eL eC _ h1 hlt h3]
    rw [hea, heb, jsGetD_coe_getD, jsGetD_coe_getD, htls]
    rw [List.headD_cons]
    have hlast : (((jsSplit '\n' doc).getD (sL - 1) []).drop (sC - 1) ::
          (((jsSplit '\n' doc).drop sL).take (eL - 1 - sL) ++
            [((jsSplit '\n' doc).getD (eL - 1) []).take (eC - 1)])).getLastD [] =
        ((jsSplit '\n' doc).getD (eL - 1) []).take (eC - 1) := by
      rw [← List.cons_append, List.getLastD_concat]
    have hmidr : ((((jsSplit '\n' doc).getD (sL - 1) []).drop (sC - 1) ::
          (((jsSplit '\n' doc).drop sL).take (eL - 1 - sL) ++
            [((jsSplit '\n' doc).getD (eL - 1) []).take (eC - 1)])).drop 1).dropLast =
        ((jsSplit '\n' doc).drop sL).take (eL - 1 - sL) := by
      rw [show ((((jsSplit '\n' doc).getD (sL - 1) []).drop (sC - 1) ::
          (((jsSplit '\n' doc).drop sL).take (eL - 1 - sL) ++
            [((jsSplit '\n' doc).getD (eL - 1) []).take (eC - 1)])).drop 1) =
          (((jsSplit '\n' doc).drop sL).take (eL - 1 - sL) ++
            [((jsSplit '\n' doc).getD (eL - 1) []).take (eC - 1)]) from rfl,
        List.dropLast_concat]
    rw [hlast, hmidr]
    have hsafeS : (min (max 0 ((sC : Int) - 1))
        ((((jsSplit '\n' doc).getD (sL - 1) []).length : Nat) : Int)).toNat = sC - 1 := by
      omega
    have hsafeE : (min (max 0 ((eC : Int) - 1))
        ((((jsSplit '\n' doc).getD (eL - 1) []).length : Nat) : Int)).toNat = eC - 1 := by
      omega
    rw [hsafeS, hsafeE, spliceString_eq, spliceString_eq]
    simp only [List.drop_length, List.append_nil, List.take_zero, List.nil_append,
      List.take_append_drop]
    rw [reassemble (jsSplit '\n' doc) sL eL h1 hlt h3]
    exact jsJoin_jsSplit '\n' doc

/-- C2, counterexample: for the multi-line replace `("Z", 1, 2, 2, 2)` on
`"ab\ncd"` (2 lines spanned, `k = 0` newlines in the replacement), the
result has 2 lines while the claimed formula
`originalLineCount - removedLineCount + (k+1)` gives 1. -/
theorem C2_counterexample :
    (jsSplit '\n' (applyEdit "ab\ncd".toList ⟨"Z".toList, 1, 2, 2, 2⟩)).length = 2 ∧
    (jsSplit '\n' "ab\ncd".toList).length - (2 - 1 + 1) +
      ("Z".toList.count '\n' + 1) = 1 ∧ (2 : Nat) ≠ 1 := by
  refine ⟨by decide, by decide, by decide⟩

/-- Witness for C2 at a concrete input. -/
theorem C2_witness :
    (jsSplit '\n' (applyEdit "ab\ncd".toList ⟨"Z".toList, 1, 2, 2, 2⟩)).length =
      (jsSplit '\n' "ab\ncd".toList).length - (2 - 1 + 1) +
        max ("Z".toList.count '\n' + 1) 2 := by
  have h := C2_line_count_accounting "ab\ncd".toList "Z".toList 1 2 2 2 (by decide)
    (by decide) (by decide) (by decide) (by decide) (by decide) (by decide) (by decide)
  exact_mod_cast h

/-- Witness for C5 at a concrete input: the content of range
(1,2)-(2,2) of `"ab\ncd"` is `"b\nc"`, and replacing that range by it
leaves the document unchanged. -/
theorem C5_witness :
    rangeContent "ab\ncd".toList 1 2 2 2 = "b\nc".toList ∧
    applyEdit "ab\ncd".toList ⟨rangeContent "ab\ncd".toList 1 2 2 2, 1, 2, 2, 2⟩ =
      "ab\ncd".toList := by
  have h := C5_noop_idempotence "ab\ncd".toList 1 2 2 2 (by decide) (by decide)
    (by decide) (by decide) (by decide) (by decide) (by decide) (by decide)
  exact ⟨by decide, by exact_mod_cast h⟩
